import Mathlib

/-!
Verification development for the rollout-collection engine of
`sample_factory/algo/rollout_worker.py`.

Per-agent tensors are embedded as Lean lists (index = agent), scalar floats as
rationals, and the shared trajectory storage (`traj_tensors`) as a function
from slice handles to slices whose rows are `Option`-valued (a row is `some`
once it has been written).
-/

namespace SampleFactory

/-! ### List index helpers -/

theorem getD_map_of_lt {α β : Type} (f : α → β) (xs : List α) (i : ℕ) (hi : i < xs.length)
    (da : α) (db : β) : (xs.map f).getD i db = f (xs.getD i da) := by
  induction xs generalizing i with
  | nil => simp at hi
  | cons x xs ih =>
    cases i with
    | zero => rfl
    | succ n =>
      simp only [List.map_cons, List.getD_cons_succ]
      exact ih n (by simpa using hi)

theorem getD_zipWith_of_lt {α β γ : Type} (f : α → β → γ) (xs : List α) (ys : List β) (i : ℕ)
    (hx : i < xs.length) (hy : i < ys.length) (da : α) (db : β) (dc : γ) :
    (List.zipWith f xs ys).getD i dc = f (xs.getD i da) (ys.getD i db) := by
  induction xs generalizing ys i with
  | nil => simp at hx
  | cons x xs ih =>
    cases ys with
    | nil => simp at hy
    | cons y ys =>
      cases i with
      | zero => rfl
      | succ n =>
        simp only [List.zipWith_cons_cons, List.getD_cons_succ]
        exact ih ys n (by simpa using hx) (by simpa using hy)

/-! ### Configuration surface (the recognized options of `self.cfg`) -/

structure Config where
  reward_scale : ℚ
  reward_clip : ℚ
  gamma : ℚ
  value_bootstrap : Bool
  rollout : ℕ
  num_workers : ℕ
  decorrelate_experience_max_seconds : ℚ
  benchmark : Bool
deriving DecidableEq

/-! ### Auxiliary info from the environment step

The source handles two shapes of `infos`: a dict of batched tensors (read via
the string key, e.g. `infos['time_outs']`) or a list of per-agent dicts (read
via `infos[agent_i].get(...)`).  `'time_outs' in infos` is a string-membership
test, which is false when `infos` is a list of dicts. -/

structure AgentInfo where
  true_objective : Option ℚ
  episode_extra_stats : Option (List (String × ℚ))
deriving DecidableEq

inductive Infos where
  | dictOfTensors : Option (List Bool) → Infos
  | listOfDicts : List AgentInfo → Infos
deriving DecidableEq

instance : Inhabited Infos := ⟨Infos.dictOfTensors none⟩

def timeOutsOf : Infos → Option (List Bool)
  | Infos.dictOfTensors t => t
  | Infos.listOfDicts _ => none

/-! ### Reward processing (`BatchedVectorEnvRunner._process_rewards`, lines 176-186) -/

def clamp (x lo hi : ℚ) : ℚ := min (max x lo) hi

def addBootstrap (gamma : ℚ) : List ℚ → List ℚ → List Bool → List ℚ
  | r :: rs, v :: vs, f :: fs =>
      (r + gamma * v * (if f then (1 : ℚ) else 0)) :: addBootstrap gamma rs vs fs
  | _, _, _ => []

def processRewards (cfg : Config) (rewards_orig values : List ℚ) (infos : Infos) : List ℚ :=
  let rewards := rewards_orig.map
    (fun r => clamp (r * cfg.reward_scale) (-cfg.reward_clip) cfg.reward_clip)
  match cfg.value_bootstrap, timeOutsOf infos with
  | true, some time_outs => addBootstrap cfg.gamma rewards values time_outs
  | _, _ => rewards

theorem addBootstrap_getD (gamma : ℚ) (rs vs : List ℚ) (fs : List Bool) (i : ℕ)
    (hr : i < rs.length) (hv : i < vs.length) (hfs : i < fs.length) :
    (addBootstrap gamma rs vs fs).getD i 0 =
      rs.getD i 0 + gamma * vs.getD i 0 * (if fs.getD i false then (1 : ℚ) else 0) := by
  induction rs generalizing vs fs i with
  | nil => simp at hr
  | cons r rs ih =>
    cases vs with
    | nil => simp at hv
    | cons v vs =>
      cases fs with
      | nil => simp at hfs
      | cons f fs =>
        cases i with
        | zero => rfl
        | succ n =>
          simp only [addBootstrap, List.getD_cons_succ]
          exact ih vs fs n (by simpa using hr) (by simpa using hv) (by simpa using hfs)

/-- C1: for every step, the processed reward per agent equals
`clamp(raw_reward * reward_scale, -reward_clip, reward_clip)`, and when
`value_bootstrap` is enabled and the auxiliary info carries a time-out flag,
`gamma * value_estimate` is added exactly to those agents whose time-out flag
is true, and to no other agent. -/
theorem c1_reward_processing (cfg : Config) (A : ℕ) (raw values : List ℚ) (infos : Infos)
    (i : ℕ) (hr : raw.length = A) (hv : values.length = A)
    (hf : ∀ fl, timeOutsOf infos = some fl → fl.length = A) (hi : i < A) :
    (processRewards cfg raw values infos).getD i 0 =
      clamp (raw.getD i 0 * cfg.reward_scale) (-cfg.reward_clip) cfg.reward_clip +
      (if cfg.value_bootstrap = true ∧ ((timeOutsOf infos).getD []).getD i false = true
       then cfg.gamma * values.getD i 0 else 0) := by
  unfold processRewards
  cases hb : cfg.value_bootstrap with
  | false =>
    simp only []
    rw [getD_map_of_lt _ raw i (hr ▸ hi) 0 0]
    simp
  | true =>
    cases hto : timeOutsOf infos with
    | none =>
      simp only []
      rw [getD_map_of_lt _ raw i (hr ▸ hi) 0 0]
      simp
    | some fl =>
      have hfl : fl.length = A := hf fl hto
      simp only []
      rw [addBootstrap_getD cfg.gamma _ values fl i
        (by simpa [List.length_map, hr] using hi) (hv ▸ hi) (hfl ▸ hi)]
      rw [getD_map_of_lt _ raw i (hr ▸ hi) 0 0]
      simp only [Option.getD_some, true_and]
      by_cases hflag : fl.getD i false = true
      · rw [if_pos hflag, if_pos hflag, mul_one]
      · rw [if_neg hflag, if_neg hflag, mul_zero, add_zero]

def demoCfg : Config :=
  { reward_scale := 2, reward_clip := 3/2, gamma := 1/2, value_bootstrap := true,
    rollout := 2, num_workers := 8, decorrelate_experience_max_seconds := 80,
    benchmark := false }

/-- Witness for C1: concrete evaluation with two agents, the first timed out. -/
theorem c1_reward_processing_witness :
    (processRewards demoCfg [3, -4] [10, 20]
        (Infos.dictOfTensors (some [true, false]))).getD 0 0 =
      clamp (([(3 : ℚ), -4].getD 0 0) * demoCfg.reward_scale)
          (-demoCfg.reward_clip) demoCfg.reward_clip +
      (if demoCfg.value_bootstrap = true ∧
          ((timeOutsOf (Infos.dictOfTensors (some [true, false]))).getD []).getD 0 false = true
       then demoCfg.gamma * ([(10 : ℚ), 20].getD 0 0) else 0) :=
  c1_reward_processing demoCfg 2 [3, -4] [10, 20] (Infos.dictOfTensors (some [true, false])) 0
    (by decide) (by decide) (by intro fl h; cases h; rfl) (by decide)

/-! ### Episode bookkeeping (`BatchedVectorEnvRunner._process_env_step`, lines 188-224)

Note the source accumulates `rewards_orig` — the RAW environment rewards as
returned by `vec_env.step`, not the scaled/clamped/bootstrapped rewards that
are written into the trajectory slice. -/

structure Report where
  reward : ℚ
  len : ℕ
  true_objective : ℚ
  episode_extra_stats : Option (List (String × ℚ))
  policy_id : ℤ
deriving DecidableEq, Inhabited

/-- Python truthiness of the `if last_episode_extra_stats:` guard: `None` and
an empty mapping are both skipped. -/
def truthyExtra : Option (List (String × ℚ)) → Option (List (String × ℚ))
  | some (x :: xs) => some (x :: xs)
  | _ => none

/-- Indices of the agents whose done flag is set, in increasing order
(`dones.nonzero(as_tuple=True)[0]`). -/
def nonzeroIdx : List Bool → ℕ → List ℕ
  | [], _ => []
  | d :: ds, i => (if d then [i] else []) ++ nonzeroIdx ds (i + 1)

def finishedIndices (dones : List Bool) : List ℕ := nonzeroIdx dones 0

/-- Per-agent view of `infos`: only the list-of-dicts shape is actually read
for `true_objective` / `episode_extra_stats` (the `isinstance` branch). -/
def agentInfoAt (infos : Infos) (i : ℕ) : AgentInfo :=
  match infos with
  | Infos.listOfDicts ags => ags.getD i { true_objective := none, episode_extra_stats := none }
  | Infos.dictOfTensors _ => { true_objective := none, episode_extra_stats := none }

def makeReport (pid : ℤ) (reward' : List ℚ) (len' : List ℕ) (infos : Infos) (i : ℕ) : Report :=
  let last_episode_reward := reward'.getD i 0
  let last_episode_duration := len'.getD i 0
  let info := agentInfoAt infos i
  { reward := last_episode_reward,
    len := last_episode_duration,
    true_objective := info.true_objective.getD last_episode_reward,
    episode_extra_stats := truthyExtra info.episode_extra_stats,
    policy_id := pid }

/-- Vectorized form of `self.curr_episode_reward[finished_episodes] = 0`. -/
def resetWhere {α : Type} (z : α) (xs : List α) (dones : List Bool) : List α :=
  List.zipWith (fun x d => if d then z else x) xs dones

def processEnvStep (pid : ℤ) (ep_reward : List ℚ) (ep_len : List ℕ)
    (rewards : List ℚ) (dones : List Bool) (infos : Infos) :
    List Report × List ℚ × List ℕ :=
  let reward' := List.zipWith (fun a r => a + r) ep_reward rewards
  let len' := ep_len.map (fun n => n + 1)
  let reports := (finishedIndices dones).map (makeReport pid reward' len' infos)
  (reports, resetWhere 0 reward' dones, resetWhere 0 len' dones)

/-! ### Trajectory slices and the shared buffer pool -/

structure Slice where
  obs : ℕ → Option (List ℚ)
  rnn_states : ℕ → Option (List (List ℚ))
  actions : ℕ → Option (List ℚ)
  rewards : ℕ → Option (List ℚ)
  dones : ℕ → Option (List Bool)
  values : ℕ → Option (List ℚ)
  log_probs : ℕ → Option (List ℚ)
  policy_id : ℕ → Option (List ℤ)

def emptySlice : Slice :=
  { obs := fun _ => none, rnn_states := fun _ => none, actions := fun _ => none,
    rewards := fun _ => none, dones := fun _ => none, values := fun _ => none,
    log_probs := fun _ => none, policy_id := fun _ => none }

instance : Inhabited Slice := ⟨emptySlice⟩

def writeAt {α : Type} (f : ℕ → Option α) (r : ℕ) (v : α) : ℕ → Option α :=
  fun x => if x = r then some v else f x

def updateSlice (t : ℕ → Slice) (h : ℕ) (f : Slice → Slice) : ℕ → Slice :=
  fun x => if x = h then f (t x) else t x

/-- Acquisition from the trajectory buffer pool
(`BatchedVectorEnvRunner._update_trajectory_buffers`, lines 166-174): the
queue yields `none`-like emptiness when no slice became available within the
timeout, in which case a fatal `RuntimeError` is raised rather than retrying. -/
def updateTrajectoryBuffers (traj_buffer_queue : List ℕ) : Except String (ℕ × List ℕ) :=
  match traj_buffer_queue with
  | [] => Except.error "Trajectory buffer not available"
  | buffers :: rest => Except.ok (buffers, rest)

/-! ### The runner state machine (`BatchedVectorEnvRunner.advance_rollouts`, lines 233-294) -/

structure StepInput where
  actions : List ℚ
  values : List ℚ
  log_probs : List ℚ
  new_rnn_states : List (List ℚ)
  env_obs : List ℚ
  env_rewards : List ℚ
  env_dones : List Bool
  infos : Infos
deriving DecidableEq, Inhabited

structure RunnerState where
  num_agents : ℕ
  policy_id : ℤ
  rollout_step : ℕ
  last_obs : List ℚ
  last_rnn_state : List (List ℚ)
  curr_episode_reward : List ℚ
  curr_episode_len : List ℕ
  curr_traj_slice : ℕ
  pool : List ℕ
  traj_tensors : ℕ → Slice

instance : Inhabited RunnerState :=
  ⟨{ num_agents := 0, policy_id := 0, rollout_step := 0, last_obs := [],
     last_rnn_state := [], curr_episode_reward := [], curr_episode_len := [],
     curr_traj_slice := 0, pool := [], traj_tensors := fun _ => emptySlice }⟩

structure StepOut where
  policy_request : List (ℤ × ℕ × ℕ)
  complete_rollouts : List ℕ
  episodic_stats : List Report
deriving DecidableEq, Inhabited

def boolToRat (b : Bool) : ℚ := if b then 1 else 0

/-- Lines 271-274: `not_done = 1.0 - dones.float()`, and the carried recurrent
state is the policy output's `new_rnn_states` scaled per agent by `not_done`. -/
def maskRnn (new_rnn_states : List (List ℚ)) (dones : List Bool) : List (List ℚ) :=
  List.zipWith (fun rnn d => rnn.map (fun x => x * (1 - boolToRat d))) new_rnn_states dones

/-- Line 247: `curr_step[:] = self.policy_output_tensors` — writes the policy
outputs (actions, values, log-probs) into the slice row at the current step
offset.  The recurrent-state field is keyed `rnn_states` in the trajectory and
`new_rnn_states` in the policy outputs, so it is written separately. -/
def writePolicyOutputs (s : Slice) (k : ℕ) (inp : StepInput) : Slice :=
  { s with actions := writeAt s.actions k inp.actions,
           values := writeAt s.values k inp.values,
           log_probs := writeAt s.log_probs k inp.log_probs }

/-- Line 269: `curr_step[:] = dict(rewards=processed_rewards, dones=dones, policy_id=...)`. -/
def writeEnvResults (s : Slice) (k : ℕ) (processed : List ℚ) (dones : List Bool)
    (pid_buf : List ℤ) : Slice :=
  { s with rewards := writeAt s.rewards k processed,
           dones := writeAt s.dones k dones,
           policy_id := writeAt s.policy_id k pid_buf }

/-- Writes observation and recurrent state into one slice row (used by both
`_finalize_trajectories` line 229-230 and `prepare_next_step` line 291). -/
def writeObsRnn (s : Slice) (k : ℕ) (o : List ℚ) (rnn : List (List ℚ)) : Slice :=
  { s with obs := writeAt s.obs k o, rnn_states := writeAt s.rnn_states k rnn }

/-- The slice storage after the two in-step writes at the current step offset. -/
def trajAfterWrites (cfg : Config) (st : RunnerState) (inp : StepInput) : ℕ → Slice :=
  updateSlice
    (updateSlice st.traj_tensors st.curr_traj_slice
      (fun s => writePolicyOutputs s st.rollout_step inp))
    st.curr_traj_slice
    (fun s => writeEnvResults s st.rollout_step
      (processRewards cfg inp.env_rewards inp.values inp.infos)
      inp.env_dones (List.replicate st.num_agents st.policy_id))

/-- Result of `advance_rollouts` when the incremented step offset has not yet
reached the rollout horizon (lines 279-294, finalization skipped). -/
def midResult (cfg : Config) (st : RunnerState) (inp : StepInput) : StepOut × RunnerState :=
  let step_result := processEnvStep st.policy_id st.curr_episode_reward st.curr_episode_len
      inp.env_rewards inp.env_dones inp.infos
  let last_rnn_state := maskRnn inp.new_rnn_states inp.env_dones
  ({ policy_request := [(st.policy_id, st.curr_traj_slice, st.rollout_step + 1)],
     complete_rollouts := [],
     episodic_stats := step_result.1 },
   { st with rollout_step := st.rollout_step + 1,
             traj_tensors := updateSlice (trajAfterWrites cfg st inp) st.curr_traj_slice
               (fun s => writeObsRnn s (st.rollout_step + 1) inp.env_obs last_rnn_state),
             last_obs := inp.env_obs,
             last_rnn_state := last_rnn_state,
             curr_episode_reward := step_result.2.1,
             curr_episode_len := step_result.2.2 })

/-- Result of `advance_rollouts` when the rollout horizon is reached: the
bootstrap row is written into the completed slice (`_finalize_trajectories`),
the completed handle is emitted, a fresh slice `buffers` was acquired from the
pool, the step offset resets to 0, and the next-step row of the fresh slice is
written. -/
def rotResult (cfg : Config) (st : RunnerState) (inp : StepInput) (buffers : ℕ)
    (rest : List ℕ) : StepOut × RunnerState :=
  let step_result := processEnvStep st.policy_id st.curr_episode_reward st.curr_episode_len
      inp.env_rewards inp.env_dones inp.infos
  let last_rnn_state := maskRnn inp.new_rnn_states inp.env_dones
  let traj3 := updateSlice (trajAfterWrites cfg st inp) st.curr_traj_slice
      (fun s => writeObsRnn s cfg.rollout inp.env_obs last_rnn_state)
  let traj4 := updateSlice traj3 buffers (fun s => writeObsRnn s 0 inp.env_obs last_rnn_state)
  ({ policy_request := [(st.policy_id, buffers, 0)],
     complete_rollouts := [st.curr_traj_slice],
     episodic_stats := step_result.1 },
   { st with rollout_step := 0, curr_traj_slice := buffers, pool := rest,
             traj_tensors := traj4, last_obs := inp.env_obs,
             last_rnn_state := last_rnn_state,
             curr_episode_reward := step_result.2.1,
             curr_episode_len := step_result.2.2 })

def advanceRollouts (cfg : Config) (st : RunnerState) (inp : StepInput) :
    Except String (StepOut × RunnerState) :=
  if st.rollout_step + 1 = cfg.rollout then
    match updateTrajectoryBuffers st.pool with
    | Except.error e => Except.error e
    | Except.ok (buffers, rest) => Except.ok (rotResult cfg st inp buffers rest)
  else
    Except.ok (midResult cfg st inp)

def runRollouts (cfg : Config) : RunnerState → List StepInput →
    Except String (RunnerState × List StepOut)
  | st, [] => Except.ok (st, [])
  | st, inp :: rest =>
    match advanceRollouts cfg st inp with
    | Except.error e => Except.error e
    | Except.ok (out, st') =>
      match runRollouts cfg st' rest with
      | Except.error e => Except.error e
      | Except.ok (stF, outs) => Except.ok (stF, out :: outs)

/-! ### Runner initialization (`BatchedVectorEnvRunner.init`, lines 131-164) -/

/-- Embeds lines 136-155: the loop body constructs and seeds an environment
for every index of the split, but the `envs` list is never appended to, so
the resulting environment group is built from an empty list. -/
def buildEnvList (make_env : ℕ → ℕ) (num_envs : ℕ) : List ℕ :=
  (List.range num_envs).foldl (fun envs env_i =>
    let _env := make_env env_i
    envs) []

/-- Embeds lines 157-164: store the reset observation, zero the recurrent
state and both per-agent episode accumulators, and acquire the initial slice. -/
def initState (num_agents : ℕ) (pid : ℤ) (obs0 : List ℚ) (rnn_width : ℕ)
    (traj_buffer_queue : List ℕ) : Except String RunnerState :=
  match updateTrajectoryBuffers traj_buffer_queue with
  | Except.error e => Except.error e
  | Except.ok (buffers, rest) =>
    Except.ok
      { num_agents := num_agents, policy_id := pid, rollout_step := 0,
        last_obs := obs0,
        last_rnn_state := List.replicate num_agents (List.replicate rnn_width 0),
        curr_episode_reward := List.replicate num_agents 0,
        curr_episode_len := List.replicate num_agents 0,
        curr_traj_slice := buffers, pool := rest,
        traj_tensors := fun _ => emptySlice }

/-- Modelled from the spec: before the first `advance_rollouts` call, the
current observation and recurrent state are written into the slice row at the
current step offset and the initial policy request is formed ("Write the
(possibly just-rotated) current observation and recurrent state into the slice
row at the (new) current step offset, preparing it for the next call").  The
function that generates the runner's first policy request is not part of the
`rollout_worker.py` source under verification. -/
def generatePolicyRequest (st : RunnerState) : List (ℤ × ℕ × ℕ) × RunnerState :=
  ([(st.policy_id, st.curr_traj_slice, st.rollout_step)],
   { st with traj_tensors := updateSlice st.traj_tensors st.curr_traj_slice
               (fun s => writeObsRnn s st.rollout_step st.last_obs st.last_rnn_state) })

/-! ### Total accessors for `Except` results -/

def exceptOk {α : Type} (e : Except String α) : Bool :=
  match e with
  | Except.ok _ => true
  | Except.error _ => false

def okD {α : Type} (e : Except String α) (d : α) : α :=
  match e with
  | Except.ok a => a
  | Except.error _ => d

/-! ### Concrete data used by witnesses -/

def demoState : RunnerState :=
  { num_agents := 2, policy_id := 0, rollout_step := 0, last_obs := [0, 0],
    last_rnn_state := [[0], [0]], curr_episode_reward := [0, 0],
    curr_episode_len := [0, 0], curr_traj_slice := 5, pool := [6],
    traj_tensors := fun _ => emptySlice }

def demoInput : StepInput :=
  { actions := [1, 0], values := [2, 3], log_probs := [0, 0],
    new_rnn_states := [[4], [5]], env_obs := [7, 8], env_rewards := [1, -2],
    env_dones := [true, false], infos := Infos.dictOfTensors none }

/-! ### Lemmas about a single `advance_rollouts` step -/

theorem advanceRollouts_proj (cfg : Config) (st : RunnerState) (inp : StepInput)
    (res : StepOut × RunnerState) (h : advanceRollouts cfg st inp = Except.ok res) :
    res.1.episodic_stats = (processEnvStep st.policy_id st.curr_episode_reward
      st.curr_episode_len inp.env_rewards inp.env_dones inp.infos).1 ∧
    res.2.curr_episode_reward = (processEnvStep st.policy_id st.curr_episode_reward
      st.curr_episode_len inp.env_rewards inp.env_dones inp.infos).2.1 ∧
    res.2.curr_episode_len = (processEnvStep st.policy_id st.curr_episode_reward
      st.curr_episode_len inp.env_rewards inp.env_dones inp.infos).2.2 ∧
    res.2.policy_id = st.policy_id ∧
    res.2.num_agents = st.num_agents ∧
    res.2.last_rnn_state = maskRnn inp.new_rnn_states inp.env_dones ∧
    res.2.last_obs = inp.env_obs ∧
    res.1.policy_request = [(st.policy_id, res.2.curr_traj_slice, res.2.rollout_step)] := by
  unfold advanceRollouts at h
  by_cases hrot : st.rollout_step + 1 = cfg.rollout
  · rw [if_pos hrot] at h
    cases hq : updateTrajectoryBuffers st.pool with
    | error e => rw [hq] at h; simp at h
    | ok pr =>
      obtain ⟨b, r⟩ := pr
      rw [hq] at h
      simp only [] at h
      injection h with h
      subst h
      exact ⟨rfl, rfl, rfl, rfl, rfl, rfl, rfl, rfl⟩
  · rw [if_neg hrot] at h
    injection h with h
    subst h
    exact ⟨rfl, rfl, rfl, rfl, rfl, rfl, rfl, rfl⟩

theorem nonzeroIdx_length (ds : List Bool) (b : ℕ) :
    (nonzeroIdx ds b).length = ds.count true := by
  induction ds generalizing b with
  | nil => rfl
  | cons d ds ih =>
    cases d <;> simp [nonzeroIdx, ih, List.count_cons]

theorem mem_nonzeroIdx (ds : List Bool) (b i : ℕ) (hi : i < ds.length)
    (hd : ds.getD i false = true) : b + i ∈ nonzeroIdx ds b := by
  induction ds generalizing b i with
  | nil => simp at hi
  | cons d ds ih =>
    cases i with
    | zero =>
      simp only [List.getD_cons_zero] at hd
      simp [nonzeroIdx, hd]
    | succ n =>
      have hmem := ih (b + 1) n (by simpa using hi) (by simpa using hd)
      have heq : b + (n + 1) = (b + 1) + n := by omega
      simp only [nonzeroIdx, List.mem_append]
      right
      rw [heq]
      exact hmem

theorem mem_finishedIndices (ds : List Bool) (i : ℕ) (hi : i < ds.length)
    (hd : ds.getD i false = true) : i ∈ finishedIndices ds := by
  have hmem := mem_nonzeroIdx ds 0 i hi hd
  simpa using hmem

theorem processEnvStep_reward_getD (pid : ℤ) (epR : List ℚ) (epL : List ℕ)
    (rew : List ℚ) (dones : List Bool) (infos : Infos) (A i : ℕ)
    (hR : epR.length = A) (hrew : rew.length = A) (hd : dones.length = A) (hi : i < A) :
    (processEnvStep pid epR epL rew dones infos).2.1.getD i 0 =
      if dones.getD i false then 0 else epR.getD i 0 + rew.getD i 0 := by
  unfold processEnvStep resetWhere
  simp only []
  rw [getD_zipWith_of_lt _ _ dones i
        (by rw [List.length_zipWith]; omega) (by omega) 0 false 0,
      getD_zipWith_of_lt _ epR rew i (by omega) (by omega) 0 0 0]

theorem processEnvStep_len_getD (pid : ℤ) (epR : List ℚ) (epL : List ℕ)
    (rew : List ℚ) (dones : List Bool) (infos : Infos) (A i : ℕ)
    (hL : epL.length = A) (hd : dones.length = A) (hi : i < A) :
    (processEnvStep pid epR epL rew dones infos).2.2.getD i 0 =
      if dones.getD i false then 0 else epL.getD i 0 + 1 := by
  unfold processEnvStep resetWhere
  simp only []
  rw [getD_zipWith_of_lt _ _ dones i
        (by rw [List.length_map]; omega) (by omega) 0 false 0,
      getD_map_of_lt _ epL i (by omega) 0 0]

theorem processEnvStep_report_mem (pid : ℤ) (epR : List ℚ) (epL : List ℕ)
    (rew : List ℚ) (dones : List Bool) (infos : Infos) (A i : ℕ)
    (hR : epR.length = A) (hL : epL.length = A) (hrew : rew.length = A)
    (hd : dones.length = A) (hi : i < A) (hdone : dones.getD i false = true) :
    ∃ rep ∈ (processEnvStep pid epR epL rew dones infos).1,
      rep.reward = epR.getD i 0 + rew.getD i 0 ∧ rep.len = epL.getD i 0 + 1 ∧
      rep.policy_id = pid := by
  have hmem := mem_finishedIndices dones i (by omega) hdone
  refine ⟨makeReport pid (List.zipWith (fun a r => a + r) epR rew)
      (epL.map (fun n => n + 1)) infos i, List.mem_map_of_mem _ hmem, ?_, ?_, rfl⟩
  · show (List.zipWith (fun a r => a + r) epR rew).getD i 0 = _
    rw [getD_zipWith_of_lt _ epR rew i (by omega) (by omega) 0 0 0]
  · show (epL.map (fun n => n + 1)).getD i 0 = _
    rw [getD_map_of_lt _ epL i (by omega) 0 0]

theorem processEnvStep_stats_length (pid : ℤ) (epR : List ℚ) (epL : List ℕ)
    (rew : List ℚ) (dones : List Bool) (infos : Infos) :
    (processEnvStep pid epR epL rew dones infos).1.length = dones.count true := by
  unfold processEnvStep finishedIndices
  simp [nonzeroIdx_length]

/-- C3: on every step of `advance_rollouts` the per-agent episode accumulator
gains `+reward` and `+1` length before the done check (so it is non-decreasing
in length, and in reward when rewards are non-negative, within an episode); it
is reset to `(0, 0)` exactly at the step where `done[i]` is observed true,
after that agent's episode report (carrying the pre-reset totals) is emitted;
when several agents are done in the same step, every one of them is reported
and reset. -/
theorem c3_episode_accumulator (cfg : Config) (st : RunnerState) (inp : StepInput) (A i : ℕ)
    (hok : exceptOk (advanceRollouts cfg st inp) = true)
    (hR : st.curr_episode_reward.length = A) (hL : st.curr_episode_len.length = A)
    (hrew : inp.env_rewards.length = A) (hd : inp.env_dones.length = A) (hi : i < A) :
    (inp.env_dones.getD i false = false →
      (okD (advanceRollouts cfg st inp) default).2.curr_episode_reward.getD i 0 =
        st.curr_episode_reward.getD i 0 + inp.env_rewards.getD i 0 ∧
      (okD (advanceRollouts cfg st inp) default).2.curr_episode_len.getD i 0 =
        st.curr_episode_len.getD i 0 + 1 ∧
      st.curr_episode_len.getD i 0 ≤
        (okD (advanceRollouts cfg st inp) default).2.curr_episode_len.getD i 0 ∧
      (0 ≤ inp.env_rewards.getD i 0 →
        st.curr_episode_reward.getD i 0 ≤
          (okD (advanceRollouts cfg st inp) default).2.curr_episode_reward.getD i 0)) ∧
    (inp.env_dones.getD i false = true →
      (okD (advanceRollouts cfg st inp) default).2.curr_episode_reward.getD i 0 = 0 ∧
      (okD (advanceRollouts cfg st inp) default).2.curr_episode_len.getD i 0 = 0 ∧
      ∃ rep ∈ (okD (advanceRollouts cfg st inp) default).1.episodic_stats,
        rep.reward = st.curr_episode_reward.getD i 0 + inp.env_rewards.getD i 0 ∧
        rep.len = st.curr_episode_len.getD i 0 + 1) ∧
    (okD (advanceRollouts cfg st inp) default).1.episodic_stats.length =
      inp.env_dones.count true := by
  cases h : advanceRollouts cfg st inp with
  | error e => rw [h] at hok; simp [exceptOk] at hok
  | ok res =>
    obtain ⟨hstats, hepR, hepL, _, _, _, _, _⟩ := advanceRollouts_proj cfg st inp res h
    simp only [okD]
    refine ⟨?_, ?_, ?_⟩
    · intro hnd
      have hcond : ¬(inp.env_dones.getD i false = true) := by
        rw [hnd]
        exact Bool.false_ne_true
      rw [hepR, hepL,
        processEnvStep_reward_getD st.policy_id _ _ _ _ inp.infos A i hR hrew hd hi,
        processEnvStep_len_getD st.policy_id _ _ _ _ inp.infos A i hL hd hi,
        if_neg hcond, if_neg hcond]
      refine ⟨rfl, rfl, by omega, ?_⟩
      intro hpos
      linarith
    · intro hdone
      rw [hepR, hepL, hstats,
        processEnvStep_reward_getD st.policy_id _ _ _ _ inp.infos A i hR hrew hd hi,
        processEnvStep_len_getD st.policy_id _ _ _ _ inp.infos A i hL hd hi,
        if_pos hdone, if_pos hdone]
      refine ⟨rfl, rfl, ?_⟩
      obtain ⟨rep, hmem, hrw, hlen, _⟩ := processEnvStep_report_mem st.policy_id
        st.curr_episode_reward st.curr_episode_len inp.env_rewards inp.env_dones inp.infos
        A i hR hL hrew hd hi hdone
      exact ⟨rep, hmem, hrw, hlen⟩
    · rw [hstats, processEnvStep_stats_length]

/-- Witness for C3: concrete step with agent 0 done and agent 1 alive. -/
theorem c3_episode_accumulator_witness :
    ([(true : Bool), false].getD 0 false = false →
      (okD (advanceRollouts demoCfg demoState demoInput) default).2.curr_episode_reward.getD 0 0 =
        demoState.curr_episode_reward.getD 0 0 + demoInput.env_rewards.getD 0 0 ∧
      (okD (advanceRollouts demoCfg demoState demoInput) default).2.curr_episode_len.getD 0 0 =
        demoState.curr_episode_len.getD 0 0 + 1 ∧
      demoState.curr_episode_len.getD 0 0 ≤
        (okD (advanceRollouts demoCfg demoState demoInput) default).2.curr_episode_len.getD 0 0 ∧
      (0 ≤ demoInput.env_rewards.getD 0 0 →
        demoState.curr_episode_reward.getD 0 0 ≤
          (okD (advanceRollouts demoCfg demoState demoInput) default).2.curr_episode_reward.getD 0 0)) ∧
    ([(true : Bool), false].getD 0 false = true →
      (okD (advanceRollouts demoCfg demoState demoInput) default).2.curr_episode_reward.getD 0 0 = 0 ∧
      (okD (advanceRollouts demoCfg demoState demoInput) default).2.curr_episode_len.getD 0 0 = 0 ∧
      ∃ rep ∈ (okD (advanceRollouts demoCfg demoState demoInput) default).1.episodic_stats,
        rep.reward = demoState.curr_episode_reward.getD 0 0 + demoInput.env_rewards.getD 0 0 ∧
        rep.len = demoState.curr_episode_len.getD 0 0 + 1) ∧
    (okD (advanceRollouts demoCfg demoState demoInput) default).1.episodic_stats.length =
      demoInput.env_dones.count true := by
  have hw := c3_episode_accumulator demoCfg demoState demoInput 2 0 (by decide)
    (by decide) (by decide) (by decide) (by decide) (by decide)
  exact hw

theorem maskRnn_getD (ns : List (List ℚ)) (ds : List Bool) (i : ℕ)
    (hn : i < ns.length) (hd : i < ds.length) :
    (maskRnn ns ds).getD i [] =
      (ns.getD i []).map (fun x => x * (1 - boolToRat (ds.getD i false))) := by
  unfold maskRnn
  exact getD_zipWith_of_lt _ ns ds i hn hd [] false []

theorem map_mul_zero_eq_replicate (l : List ℚ) :
    l.map (fun x => x * 0) = List.replicate l.length 0 := by
  induction l with
  | nil => rfl
  | cons x xs ih => simp [ih, List.replicate_succ]

theorem map_mul_one_eq_self (l : List ℚ) : l.map (fun x => x * 1) = l := by
  induction l with
  | nil => rfl
  | cons x xs ih => simp [ih]

/-- C5: after every `advance_rollouts` step the carried-forward recurrent state
equals the policy output's updated recurrent state multiplied element-wise by
`(1 - done)` per agent; an agent with `done == true` enters its next episode
with an all-zero recurrent state, while a live agent keeps the updated state. -/
theorem c5_rnn_reset (cfg : Config) (st : RunnerState) (inp : StepInput) (A i : ℕ)
    (hok : exceptOk (advanceRollouts cfg st inp) = true)
    (hrnn : inp.new_rnn_states.length = A) (hd : inp.env_dones.length = A) (hi : i < A) :
    (okD (advanceRollouts cfg st inp) default).2.last_rnn_state =
      maskRnn inp.new_rnn_states inp.env_dones ∧
    (inp.env_dones.getD i false = true →
      (okD (advanceRollouts cfg st inp) default).2.last_rnn_state.getD i [] =
        List.replicate (inp.new_rnn_states.getD i []).length 0) ∧
    (inp.env_dones.getD i false = false →
      (okD (advanceRollouts cfg st inp) default).2.last_rnn_state.getD i [] =
        inp.new_rnn_states.getD i []) := by
  cases h : advanceRollouts cfg st inp with
  | error e => rw [h] at hok; simp [exceptOk] at hok
  | ok res =>
    obtain ⟨_, _, _, _, _, hmask, _, _⟩ := advanceRollouts_proj cfg st inp res h
    simp only [okD]
    refine ⟨hmask, ?_, ?_⟩
    · intro hdone
      rw [hmask, maskRnn_getD inp.new_rnn_states inp.env_dones i (by omega) (by omega), hdone]
      have hz : (1 : ℚ) - boolToRat true = 0 := by norm_num [boolToRat]
      simp only [hz]
      exact map_mul_zero_eq_replicate _
    · intro hlive
      rw [hmask, maskRnn_getD inp.new_rnn_states inp.env_dones i (by omega) (by omega), hlive]
      have ho : (1 : ℚ) - boolToRat false = 1 := by norm_num [boolToRat]
      simp only [ho]
      exact map_mul_one_eq_self _

/-- Witness for C5: concrete step in which agent 0 is done and agent 1 is not. -/
theorem c5_rnn_reset_witness :
    (okD (advanceRollouts demoCfg demoState demoInput) default).2.last_rnn_state =
      maskRnn demoInput.new_rnn_states demoInput.env_dones ∧
    (demoInput.env_dones.getD 0 false = true →
      (okD (advanceRollouts demoCfg demoState demoInput) default).2.last_rnn_state.getD 0 [] =
        List.replicate (demoInput.new_rnn_states.getD 0 []).length 0) ∧
    (demoInput.env_dones.getD 0 false = false →
      (okD (advanceRollouts demoCfg demoState demoInput) default).2.last_rnn_state.getD 0 [] =
        demoInput.new_rnn_states.getD 0 []) :=
  c5_rnn_reset demoCfg demoState demoInput 2 0 (by decide) (by decide) (by decide) (by decide)

/-- C10: every successful `advance_rollouts` call returns a policy request that
is a single-entry mapping from the runner's own policy id to the pair of the
(post-rotation) current slice handle and current step offset — never empty and
never addressed to a different policy. -/
theorem c10_policy_request (cfg : Config) (st : RunnerState) (inp : StepInput)
    (hok : exceptOk (advanceRollouts cfg st inp) = true) :
    (okD (advanceRollouts cfg st inp) default).1.policy_request =
      [(st.policy_id,
        (okD (advanceRollouts cfg st inp) default).2.curr_traj_slice,
        (okD (advanceRollouts cfg st inp) default).2.rollout_step)] ∧
    (okD (advanceRollouts cfg st inp) default).1.policy_request.length = 1 := by
  cases h : advanceRollouts cfg st inp with
  | error e => rw [h] at hok; simp [exceptOk] at hok
  | ok res =>
    obtain ⟨_, _, _, _, _, _, _, hreq⟩ := advanceRollouts_proj cfg st inp res h
    simp only [okD]
    exact ⟨hreq, by rw [hreq]; rfl⟩

/-- Witness for C10: concrete evaluation of one step. -/
theorem c10_policy_request_witness :
    (okD (advanceRollouts demoCfg demoState demoInput) default).1.policy_request =
      [(demoState.policy_id,
        (okD (advanceRollouts demoCfg demoState demoInput) default).2.curr_traj_slice,
        (okD (advanceRollouts demoCfg demoState demoInput) default).2.rollout_step)] ∧
    (okD (advanceRollouts demoCfg demoState demoInput) default).1.policy_request.length = 1 :=
  c10_policy_request demoCfg demoState demoInput (by decide)

/-! ### C8: fatal error on buffer-pool exhaustion -/

/-- C8: when no slice becomes available from the pool within the acquisition
timeout (modelled as an empty queue), the acquisition raises a fatal error,
and at a rotation step this error is surfaced to the caller of
`advance_rollouts` instead of being silently retried. -/
theorem c8_buffer_timeout (pool : List ℕ) (cfg : Config) (st : RunnerState) (inp : StepInput)
    (hpool : pool = []) (hst : st.pool = []) (hrot : st.rollout_step + 1 = cfg.rollout) :
    updateTrajectoryBuffers pool = Except.error "Trajectory buffer not available" ∧
    advanceRollouts cfg st inp = Except.error "Trajectory buffer not available" := by
  subst hpool
  refine ⟨rfl, ?_⟩
  unfold advanceRollouts
  rw [if_pos hrot, hst]
  rfl

def demoEmptyPoolState : RunnerState :=
  { demoState with pool := [], rollout_step := 1 }

/-- Witness for C8: pool exhausted at the rotation step of a 2-step rollout. -/
theorem c8_buffer_timeout_witness :
    updateTrajectoryBuffers [] = Except.error "Trajectory buffer not available" ∧
    advanceRollouts demoCfg demoEmptyPoolState demoInput =
      Except.error "Trajectory buffer not available" :=
  c8_buffer_timeout [] demoCfg demoEmptyPoolState demoInput rfl rfl rfl

/-! ### C9: the environment list built by `init` -/

/-- C9 (code-bug evidence): the loop of `init` (lines 136-151) constructs an
environment per index but never appends it to `envs`, so the environment group
is built from an empty list — for a runner assigned one environment the group
contains zero environments, contradicting the claim that it contains one per
index of the split. -/
theorem c9_env_group_empty :
    buildEnvList (fun i => i + 100) 1 = [] ∧
    (buildEnvList (fun i => i + 100) 1).length ≠ 1 ∧
    ∀ (make_env : ℕ → ℕ) (num_envs : ℕ), buildEnvList make_env num_envs = [] := by
  refine ⟨rfl, by decide, ?_⟩
  intro make_env num_envs
  show (List.range num_envs).foldl _ [] = []
  generalize List.range num_envs = l
  induction l with
  | nil => rfl
  | cons a l ih => exact ih

/-! ### C6: grouping completed rollouts by policy id
(`RolloutWorker._enqueue_complete_rollouts`, lines 394-404) -/

structure CompletedRollout where
  policy_id : ℤ
  traj_slice : ℕ
deriving DecidableEq, Inhabited

/-- One iteration of the dictionary-building loop: append the rollout to its
policy's bucket, creating the bucket on first appearance (Python dict
semantics: keys in first-appearance order). -/
def groupStep (acc : List (ℤ × List CompletedRollout)) (rollout : CompletedRollout) :
    List (ℤ × List CompletedRollout) :=
  if acc.any (fun kv => kv.1 == rollout.policy_id) then
    acc.map (fun kv => if kv.1 == rollout.policy_id then (kv.1, kv.2 ++ [rollout]) else kv)
  else acc ++ [(rollout.policy_id, [rollout])]

def rolloutsPerPolicy (complete_rollouts : List CompletedRollout) :
    List (ℤ × List CompletedRollout) :=
  complete_rollouts.foldl groupStep []

/-- The emissions of `_enqueue_complete_rollouts`: one batch per dictionary
entry, iterated in key order. -/
def enqueueCompleteRollouts (complete_rollouts : List CompletedRollout) :
    List (ℤ × List CompletedRollout) :=
  rolloutsPerPolicy complete_rollouts

/-- Loop invariant of the grouping fold. -/
def GroupInv (processed : List CompletedRollout)
    (acc : List (ℤ × List CompletedRollout)) : Prop :=
  (∀ p : ℤ, acc.countP (fun kv => kv.1 == p) =
    if processed.any (fun r => r.policy_id == p) then 1 else 0) ∧
  (∀ kv ∈ acc, kv.2 = processed.filter (fun r => r.policy_id == kv.1))

theorem groupInv_step (processed : List CompletedRollout)
    (acc : List (ℤ × List CompletedRollout)) (r : CompletedRollout)
    (hInv : GroupInv processed acc) : GroupInv (processed ++ [r]) (groupStep acc r) := by
  obtain ⟨hcount, hmem⟩ := hInv
  unfold groupStep
  by_cases hex : acc.any (fun kv => kv.1 == r.policy_id) = true
  · rw [if_pos hex]
    constructor
    · intro p
      have hcp : (acc.map (fun kv =>
            if kv.1 == r.policy_id then (kv.1, kv.2 ++ [r]) else kv)).countP
            (fun kv => kv.1 == p) = acc.countP (fun kv => kv.1 == p) := by
        rw [List.countP_map]
        apply List.countP_congr
        intro kv _
        by_cases hk : kv.1 = r.policy_id
        · simp [hk]
        · simp [hk]
      rw [hcp, hcount p]
      by_cases hp : p = r.policy_id
      · have hany : processed.any (fun x => x.policy_id == p) = true := by
          by_contra hfalse
          have h0 : acc.countP (fun kv => kv.1 == p) = 0 := by
            rw [hcount p]
            simp [hfalse]
          obtain ⟨kv, hkv, hkvp⟩ := List.any_eq_true.mp hex
          have hkvp2 : ((kv.1 == p) : Bool) = true := by
            rw [hp]
            exact hkvp
          have hpos : 0 < acc.countP (fun kv => kv.1 == p) :=
            List.countP_pos_iff.mpr ⟨kv, hkv, hkvp2⟩
          omega
        have hany2 : (processed ++ [r]).any (fun x => x.policy_id == p) = true := by
          rw [List.any_append, hany]
          rfl
        rw [hany, hany2]
      · have hrp : ((r.policy_id == p) : Bool) = false := by
          simp only [beq_eq_false_iff_ne, ne_eq]
          exact fun hcontra => hp hcontra.symm
        rw [List.any_append]
        simp [hrp]
    · intro kv hkv
      obtain ⟨kv0, hkv0, hkveq⟩ := List.mem_map.mp hkv
      have hval := hmem kv0 hkv0
      by_cases hk : (kv0.1 == r.policy_id) = true
      · rw [if_pos hk] at hkveq
        subst hkveq
        rw [List.filter_append, ← hval]
        have hpr : ((r.policy_id == kv0.1) : Bool) = true := by
          have heq := eq_of_beq hk
          simp [heq]
        simp [List.filter, hpr]
      · rw [if_neg hk] at hkveq
        subst hkveq
        rw [List.filter_append, hval]
        have hpr : ((r.policy_id == kv0.1) : Bool) = false := by
          cases hb : ((r.policy_id == kv0.1) : Bool) with
          | false => rfl
          | true =>
            have heq := eq_of_beq hb
            exact absurd (by simp [heq] : (kv0.1 == r.policy_id) = true) hk
        simp [List.filter, hpr]
  · rw [if_neg hex]
    have hexf : acc.any (fun kv => kv.1 == r.policy_id) = false :=
      Bool.eq_false_iff.mpr hex
    constructor
    · intro p
      rw [List.countP_append, hcount p, List.any_append]
      by_cases hp : p = r.policy_id
      · have hanyf : processed.any (fun x => x.policy_id == p) = false := by
          cases hb : processed.any (fun x => x.policy_id == p) with
          | false => rfl
          | true =>
            have hpos : 0 < acc.countP (fun kv => kv.1 == p) := by
              rw [hcount p, hb]
              simp
            obtain ⟨kv, hkv, hkvp⟩ := List.countP_pos_iff.mp hpos
            have hkvr : ((kv.1 == r.policy_id) : Bool) = true := by
              rw [← hp]
              exact hkvp
            have hanyacc : acc.any (fun kv => kv.1 == r.policy_id) = true :=
              List.any_eq_true.mpr ⟨kv, hkv, hkvr⟩
            exact absurd hanyacc hex
        have hrp : ((r.policy_id == p) : Bool) = true := by simp [hp]
        simp [hanyf, hrp, List.countP_cons]
      · have hrp : ((r.policy_id == p) : Bool) = false := by
          simp only [beq_eq_false_iff_ne, ne_eq]
          exact fun hcontra => hp hcontra.symm
        simp [hrp, List.countP_cons]
    · intro kv hkv
      rw [List.mem_append] at hkv
      cases hkv with
      | inl hin =>
        have hval := hmem kv hin
        rw [List.filter_append, hval]
        have hpr : ((r.policy_id == kv.1) : Bool) = false := by
          cases hb : ((r.policy_id == kv.1) : Bool) with
          | false => rfl
          | true =>
            have heq := eq_of_beq hb
            have hkv1 : ((kv.1 == r.policy_id) : Bool) = true := by simp [heq]
            have hanyt : acc.any (fun x => x.1 == r.policy_id) = true :=
              List.any_eq_true.mpr ⟨kv, hin, hkv1⟩
            exact absurd hanyt hex
        simp [List.filter, hpr]
      | inr hin =>
        have hkveq : kv = (r.policy_id, [r]) := by simpa using hin
        subst hkveq
        rw [List.filter_append]
        have hprocessed : processed.filter (fun x => x.policy_id == r.policy_id) = [] := by
          apply List.filter_eq_nil_iff.mpr
          intro a ha hb
          have hanyt : processed.any (fun x => x.policy_id == r.policy_id) = true :=
            List.any_eq_true.mpr ⟨a, ha, hb⟩
          have hc1 : acc.countP (fun kv => kv.1 == r.policy_id) = 1 := by
            rw [hcount r.policy_id, hanyt]
            simp
          have hpos : 0 < acc.countP (fun kv => kv.1 == r.policy_id) := by omega
          obtain ⟨kv2, hkv2, hkvp2⟩ := List.countP_pos_iff.mp hpos
          have hanyacc : acc.any (fun x => x.1 == r.policy_id) = true :=
            List.any_eq_true.mpr ⟨kv2, hkv2, hkvp2⟩
          exact absurd hanyacc hex
        rw [hprocessed]
        simp [List.filter]

theorem groupInv_foldl (rs : List CompletedRollout) :
    ∀ (pre : List CompletedRollout) (acc : List (ℤ × List CompletedRollout)),
      GroupInv pre acc → GroupInv (pre ++ rs) (rs.foldl groupStep acc) := by
  induction rs with
  | nil =>
    intro pre acc h
    simpa using h
  | cons r rs ih =>
    intro pre acc h
    have h1 := groupInv_step pre acc r h
    have h2 := ih (pre ++ [r]) (groupStep acc r) h1
    simpa [List.append_assoc] using h2

/-- C6: whenever `advance_rollouts` returns a non-empty list of completed
slices, the worker groups them by destination policy id and emits exactly one
`CompletedRollout` batch per non-empty policy-id group: each policy id with at
least one completed rollout gets exactly one emitted batch, that batch is
exactly the rollouts of that policy in order, and no batch is empty. -/
theorem c6_group_by_policy (rs : List CompletedRollout) (hne : rs ≠ []) (p : ℤ) :
    (enqueueCompleteRollouts rs).countP (fun kv => kv.1 == p) =
      (if rs.any (fun r => r.policy_id == p) then 1 else 0) ∧
    ∀ kv ∈ enqueueCompleteRollouts rs,
      kv.2 = rs.filter (fun r => r.policy_id == kv.1) ∧ kv.2 ≠ [] := by
  have h0 : GroupInv [] [] := by
    constructor
    · intro q
      simp
    · intro kv hkv
      simp at hkv
  have hInv : GroupInv rs (rolloutsPerPolicy rs) := by
    have hfold := groupInv_foldl rs [] [] h0
    simpa [rolloutsPerPolicy] using hfold
  obtain ⟨hcount, hmem⟩ := hInv
  refine ⟨hcount p, ?_⟩
  intro kv hkv
  refine ⟨hmem kv hkv, ?_⟩
  have hself : ((kv.1 == kv.1) : Bool) = true := by simp
  have hpos : 0 < (rolloutsPerPolicy rs).countP (fun x => x.1 == kv.1) :=
    List.countP_pos_iff.mpr ⟨kv, hkv, hself⟩
  have hany : rs.any (fun r => r.policy_id == kv.1) = true := by
    cases hb : rs.any (fun r => r.policy_id == kv.1) with
    | true => rfl
    | false =>
      rw [hcount kv.1, hb] at hpos
      simp at hpos
  obtain ⟨a, ha, hab⟩ := List.any_eq_true.mp hany
  have hmem2 : a ∈ rs.filter (fun r => r.policy_id == kv.1) := List.mem_filter.mpr ⟨ha, hab⟩
  rw [hmem kv hkv]
  intro hcontra
  rw [hcontra] at hmem2
  cases hmem2

def demoRollouts : List CompletedRollout :=
  [{ policy_id := 0, traj_slice := 1 }, { policy_id := 1, traj_slice := 2 },
   { policy_id := 0, traj_slice := 3 }]

/-- Witness for C6: three completed rollouts over two policies. -/
theorem c6_group_by_policy_witness :
    (enqueueCompleteRollouts demoRollouts).countP (fun kv => kv.1 == 0) =
      (if demoRollouts.any (fun r => r.policy_id == 0) then 1 else 0) ∧
    ∀ kv ∈ enqueueCompleteRollouts demoRollouts,
      kv.2 = demoRollouts.filter (fun r => r.policy_id == kv.1) ∧ kv.2 ≠ [] :=
  c6_group_by_policy demoRollouts (by decide) 0

/-! ### C7: one-time decorrelation sleep (`RolloutWorker`, lines 335-342, 361-368) -/

structure WorkerState where
  worker_idx : ℕ
  num_complete_rollouts : ℕ
deriving DecidableEq, Inhabited

/-- Line 336: `delay = (worker_idx / num_workers) * decorrelate_experience_max_seconds`. -/
def decorrelateDelay (cfg : Config) (worker_idx : ℕ) : ℚ :=
  ((worker_idx : ℚ) / (cfg.num_workers : ℚ)) * cfg.decorrelate_experience_max_seconds

/-- The `complete_rollouts` block of `RolloutWorker.advance_rollouts`
(lines 361-368): when the runner returned completed rollouts, sleep once if no
rollout was ever completed before and benchmark mode is off, then add the
number of completed rollouts to the lifetime counter. -/
def workerCompleteStep (cfg : Config) (ws : WorkerState) (complete_rollouts : List ℕ) :
    Option ℚ × WorkerState :=
  if complete_rollouts = [] then (none, ws)
  else
    ((if ws.num_complete_rollouts = 0 ∧ cfg.benchmark = false
      then some (decorrelateDelay cfg ws.worker_idx) else none),
     { ws with num_complete_rollouts := ws.num_complete_rollouts + complete_rollouts.length })

def runWorkerCompletes (cfg : Config) : WorkerState → List (List ℕ) →
    List (Option ℚ) × WorkerState
  | ws, [] => ([], ws)
  | ws, c :: cs =>
    let step := workerCompleteStep cfg ws c
    let rest := runWorkerCompletes cfg step.2 cs
    (step.1 :: rest.1, rest.2)

theorem runWorkerCompletes_no_sleep (cfg : Config) (cs : List (List ℕ)) :
    ∀ ws : WorkerState, ws.num_complete_rollouts ≠ 0 →
      ∀ k, (runWorkerCompletes cfg ws cs).1.getD k none = none := by
  induction cs with
  | nil =>
    intro ws hws k
    rfl
  | cons c cs ih =>
    intro ws hws k
    cases k with
    | zero =>
      show (workerCompleteStep cfg ws c).1 = none
      unfold workerCompleteStep
      by_cases hc : c = []
      · rw [if_pos hc]
      · rw [if_neg hc]
        simp only []
        rw [if_neg]
        intro hcontra
        exact hws hcontra.1
    | succ k =>
      show (runWorkerCompletes cfg (workerCompleteStep cfg ws c).2 cs).1.getD k none = none
      apply ih
      unfold workerCompleteStep
      by_cases hc : c = []
      · rw [if_pos hc]
        exact hws
      · rw [if_neg hc]
        show ws.num_complete_rollouts + c.length ≠ 0
        omega

/-- C7: with benchmark disabled, a decorrelation sleep of exactly
`(worker_index / num_workers) * decorrelate_experience_max_seconds` occurs at
the first call of the worker's lifetime whose completed-rollout list is
non-empty, and at no other call; with benchmark enabled it never occurs. -/
theorem c7_decorrelation (cfg : Config) (widx : ℕ) (cs : List (List ℕ)) (k : ℕ)
    (hk : k < cs.length) :
    (runWorkerCompletes cfg ⟨widx, 0⟩ cs).1.getD k none =
      if cfg.benchmark = false ∧ cs.getD k [] ≠ [] ∧ ∀ j < k, cs.getD j [] = []
      then some (decorrelateDelay cfg widx) else none := by
  induction cs generalizing k with
  | nil => simp at hk
  | cons c cs ih =>
    cases k with
    | zero =>
      show (workerCompleteStep cfg ⟨widx, 0⟩ c).1 = _
      by_cases hc : c = []
      · subst hc
        show (none : Option ℚ) = _
        rw [if_neg]
        rintro ⟨hb, hne, hall⟩
        exact hne rfl
      · unfold workerCompleteStep
        rw [if_neg hc]
        show (if ((⟨widx, 0⟩ : WorkerState).num_complete_rollouts = 0 ∧ cfg.benchmark = false)
            then some (decorrelateDelay cfg (⟨widx, 0⟩ : WorkerState).worker_idx)
            else none) = _
        by_cases hb : cfg.benchmark = false
        · have h1 : (⟨widx, 0⟩ : WorkerState).num_complete_rollouts = 0 ∧
              cfg.benchmark = false := ⟨rfl, hb⟩
          have h2 : cfg.benchmark = false ∧ (c :: cs).getD 0 [] ≠ [] ∧
              ∀ j < 0, (c :: cs).getD j [] = [] :=
            ⟨hb, hc, fun j hj => absurd hj (by omega)⟩
          rw [if_pos h1, if_pos h2]
        · have h1 : ¬((⟨widx, 0⟩ : WorkerState).num_complete_rollouts = 0 ∧
              cfg.benchmark = false) := fun hcontra => hb hcontra.2
          have h2 : ¬(cfg.benchmark = false ∧ (c :: cs).getD 0 [] ≠ [] ∧
              ∀ j < 0, (c :: cs).getD j [] = []) := fun hcontra => hb hcontra.1
          rw [if_neg h1, if_neg h2]
    | succ k =>
      by_cases hc : c = []
      · subst hc
        have hrun : (runWorkerCompletes cfg ⟨widx, 0⟩ (([] : List ℕ) :: cs)).1.getD (k + 1) none =
            (runWorkerCompletes cfg ⟨widx, 0⟩ cs).1.getD k none := rfl
        rw [hrun, ih k (by simpa using hk)]
        refine if_congr ?_ rfl rfl
        constructor
        · rintro ⟨hb, hne, hall⟩
          refine ⟨hb, hne, ?_⟩
          intro j hj
          cases j with
          | zero => rfl
          | succ j => exact hall j (by omega)
        · rintro ⟨hb, hne, hall⟩
          exact ⟨hb, hne, fun j hj => hall (j + 1) (by omega)⟩
      · have hlen : c.length ≠ 0 := fun h0 => hc (List.length_eq_zero.mp h0)
        have hstate : (workerCompleteStep cfg ⟨widx, 0⟩ c).2.num_complete_rollouts =
            c.length := by
          unfold workerCompleteStep
          rw [if_neg hc]
          simp
        have hrun : (runWorkerCompletes cfg ⟨widx, 0⟩ (c :: cs)).1.getD (k + 1) none =
            (runWorkerCompletes cfg (workerCompleteStep cfg ⟨widx, 0⟩ c).2 cs).1.getD k none :=
          rfl
        rw [hrun, runWorkerCompletes_no_sleep cfg cs _ (by rw [hstate]; exact hlen) k]
        rw [if_neg]
        rintro ⟨hb, hne, hall⟩
        exact hc (hall 0 (by omega))

/-- Witness for C7: worker 3 of 8 with `max_decorrelation_seconds = 80` sleeps
exactly 30 at its first completion. -/
theorem c7_decorrelation_witness :
    ((runWorkerCompletes demoCfg ⟨3, 0⟩ [[], [11], [12]]).1.getD 1 none =
      if demoCfg.benchmark = false ∧ [[], [11], [12]].getD 1 [] ≠ [] ∧
          ∀ j < 1, [[], [11], [12]].getD j [] = []
      then some (decorrelateDelay demoCfg 3) else none) ∧
    decorrelateDelay demoCfg 3 = 30 :=
  ⟨c7_decorrelation demoCfg 3 [[], [11], [12]] 1 (by decide),
   by norm_num [decorrelateDelay, demoCfg]⟩

/-! ### C2: slice population over one full rollout -/

theorem writeAt_isSome {α : Type} (f : ℕ → Option α) (r0 : ℕ) (v : α) (x : ℕ) :
    ((writeAt f r0 v x).isSome = true) ↔ (x = r0 ∨ (f x).isSome = true) := by
  unfold writeAt
  by_cases hx : x = r0
  · simp [hx]
  · simp [hx]

theorem writeAt_self {α : Type} (f : ℕ → Option α) (r0 : ℕ) (v : α) :
    writeAt f r0 v r0 = some v := by
  simp [writeAt]

theorem writeAt_other {α : Type} (f : ℕ → Option α) (r0 : ℕ) (v : α) (x : ℕ) (hx : x ≠ r0) :
    writeAt f r0 v x = f x := by
  simp [writeAt, hx]

theorem updateSlice_self (t : ℕ → Slice) (h : ℕ) (f : Slice → Slice) :
    updateSlice t h f h = f (t h) := by
  simp [updateSlice]

theorem updateSlice_other (t : ℕ → Slice) (h x : ℕ) (f : Slice → Slice) (hx : x ≠ h) :
    updateSlice t h f x = t x := by
  simp [updateSlice, hx]

/-- Rows written so far in the slice currently being filled: observation and
recurrent state are one row ahead (they are pre-written for the next step),
all other fields are filled for exactly the completed step offsets. -/
structure SliceInv (s : Slice) (k : ℕ) : Prop where
  obs_iff : ∀ row, ((s.obs row).isSome = true) ↔ row ≤ k
  rnn_iff : ∀ row, ((s.rnn_states row).isSome = true) ↔ row ≤ k
  actions_iff : ∀ row, ((s.actions row).isSome = true) ↔ row < k
  values_iff : ∀ row, ((s.values row).isSome = true) ↔ row < k
  log_probs_iff : ∀ row, ((s.log_probs row).isSome = true) ↔ row < k
  rewards_iff : ∀ row, ((s.rewards row).isSome = true) ↔ row < k
  dones_iff : ∀ row, ((s.dones row).isSome = true) ↔ row < k
  policy_id_iff : ∀ row, ((s.policy_id row).isSome = true) ↔ row < k

/-- Invariant of the runner during one rollout: step offset `k`, current slice
`h0`, pool headed by `h1`, and the current slice populated per `SliceInv`. -/
structure RunInv (h0 h1 : ℕ) (rest : List ℕ) (k : ℕ) (st : RunnerState) : Prop where
  step_eq : st.rollout_step = k
  slice_eq : st.curr_traj_slice = h0
  pool_eq : st.pool = h1 :: rest
  inv : SliceInv (st.traj_tensors h0) k

theorem sliceInv_mid (cfg : Config) (st : RunnerState) (inp : StepInput) (k : ℕ)
    (hstep : st.rollout_step = k)
    (hInv : SliceInv (st.traj_tensors st.curr_traj_slice) k) :
    SliceInv ((midResult cfg st inp).2.traj_tensors st.curr_traj_slice) (k + 1) := by
  have htr : (midResult cfg st inp).2.traj_tensors st.curr_traj_slice =
      writeObsRnn (writeEnvResults (writePolicyOutputs
            (st.traj_tensors st.curr_traj_slice) st.rollout_step inp)
          st.rollout_step (processRewards cfg inp.env_rewards inp.values inp.infos)
          inp.env_dones (List.replicate st.num_agents st.policy_id))
        (st.rollout_step + 1) inp.env_obs (maskRnn inp.new_rnn_states inp.env_dones) := by
    show updateSlice (trajAfterWrites cfg st inp) st.curr_traj_slice
        (fun s => writeObsRnn s (st.rollout_step + 1) inp.env_obs
          (maskRnn inp.new_rnn_states inp.env_dones)) st.curr_traj_slice = _
    rw [updateSlice_self]
    unfold trajAfterWrites
    rw [updateSlice_self, updateSlice_self]
  rw [htr, hstep]
  obtain ⟨ho, hr, ha, hv, hl, hrw, hd, hp⟩ := hInv
  refine ⟨fun row => ?_, fun row => ?_, fun row => ?_, fun row => ?_, fun row => ?_,
    fun row => ?_, fun row => ?_, fun row => ?_⟩
  · simp only [writeObsRnn, writeEnvResults, writePolicyOutputs, writeAt_isSome, ho row]
    omega
  · simp only [writeObsRnn, writeEnvResults, writePolicyOutputs, writeAt_isSome, hr row]
    omega
  · simp only [writeObsRnn, writeEnvResults, writePolicyOutputs, writeAt_isSome, ha row]
    omega
  · simp only [writeObsRnn, writeEnvResults, writePolicyOutputs, writeAt_isSome, hv row]
    omega
  · simp only [writeObsRnn, writeEnvResults, writePolicyOutputs, writeAt_isSome, hl row]
    omega
  · simp only [writeObsRnn, writeEnvResults, writePolicyOutputs, writeAt_isSome, hrw row]
    omega
  · simp only [writeObsRnn, writeEnvResults, writePolicyOutputs, writeAt_isSome, hd row]
    omega
  · simp only [writeObsRnn, writeEnvResults, writePolicyOutputs, writeAt_isSome, hp row]
    omega

theorem runInv_mid (cfg : Config) (h0 h1 : ℕ) (rest : List ℕ) (k : ℕ) (st : RunnerState)
    (inp : StepInput) (hInv : RunInv h0 h1 rest k st) (hk : k + 1 ≠ cfg.rollout) :
    advanceRollouts cfg st inp = Except.ok (midResult cfg st inp) ∧
    (midResult cfg st inp).1.complete_rollouts = [] ∧
    RunInv h0 h1 rest (k + 1) (midResult cfg st inp).2 := by
  obtain ⟨hstep, hslice, hpool, hsl⟩ := hInv
  refine ⟨?_, rfl, ?_, ?_, ?_, ?_⟩
  · unfold advanceRollouts
    rw [hstep, if_neg hk]
  · show st.rollout_step + 1 = k + 1
    rw [hstep]
  · show st.curr_traj_slice = h0
    exact hslice
  · show st.pool = h1 :: rest
    exact hpool
  · rw [← hslice]
    refine sliceInv_mid cfg st inp k hstep ?_
    rw [hslice]
    exact hsl

theorem sliceInv_writeObsRnn_zero (S : Slice) (T : ℕ) (o : List ℚ) (rnn : List (List ℚ))
    (hInv : SliceInv S T) (hT : 1 ≤ T)
    (hobs : S.obs T = some o) (hrnn : S.rnn_states T = some rnn) :
    SliceInv (writeObsRnn S 0 o rnn) T ∧
    (writeObsRnn S 0 o rnn).obs T = some o ∧
    (writeObsRnn S 0 o rnn).rnn_states T = some rnn := by
  obtain ⟨ho, hr, ha, hv, hl, hrw, hd, hp⟩ := hInv
  refine ⟨⟨fun row => ?_, fun row => ?_, fun row => ?_, fun row => ?_, fun row => ?_,
    fun row => ?_, fun row => ?_, fun row => ?_⟩, ?_, ?_⟩
  · simp only [writeObsRnn, writeAt_isSome, ho row]
    omega
  · simp only [writeObsRnn, writeAt_isSome, hr row]
    omega
  · simpa using ha row
  · simpa using hv row
  · simpa using hl row
  · simpa using hrw row
  · simpa using hd row
  · simpa using hp row
  · simp only [writeObsRnn]
    rw [writeAt_other _ _ _ _ (by omega)]
    exact hobs
  · simp only [writeObsRnn]
    rw [writeAt_other _ _ _ _ (by omega)]
    exact hrnn

theorem sliceInv_rot (cfg : Config) (st : RunnerState) (inp : StepInput)
    (buffers : ℕ) (rest : List ℕ) (hstep : st.rollout_step + 1 = cfg.rollout)
    (hInv : SliceInv (st.traj_tensors st.curr_traj_slice) st.rollout_step) :
    SliceInv ((rotResult cfg st inp buffers rest).2.traj_tensors st.curr_traj_slice)
      cfg.rollout ∧
    ((rotResult cfg st inp buffers rest).2.traj_tensors st.curr_traj_slice).obs
      cfg.rollout = some inp.env_obs ∧
    ((rotResult cfg st inp buffers rest).2.traj_tensors st.curr_traj_slice).rnn_states
      cfg.rollout = some (maskRnn inp.new_rnn_states inp.env_dones) := by
  obtain ⟨ho, hr, ha, hv, hl, hrw, hd, hp⟩ := hInv
  have hT1 : 1 ≤ cfg.rollout := by omega
  -- the completed slice after `_finalize_trajectories` wrote the bootstrap row
  have htr3 : updateSlice (trajAfterWrites cfg st inp) st.curr_traj_slice
        (fun s => writeObsRnn s cfg.rollout inp.env_obs
          (maskRnn inp.new_rnn_states inp.env_dones)) st.curr_traj_slice =
      writeObsRnn (writeEnvResults (writePolicyOutputs
            (st.traj_tensors st.curr_traj_slice) st.rollout_step inp)
          st.rollout_step (processRewards cfg inp.env_rewards inp.values inp.infos)
          inp.env_dones (List.replicate st.num_agents st.policy_id))
        cfg.rollout inp.env_obs (maskRnn inp.new_rnn_states inp.env_dones) := by
    rw [updateSlice_self]
    unfold trajAfterWrites
    rw [updateSlice_self, updateSlice_self]
  have hinv3 : SliceInv (updateSlice (trajAfterWrites cfg st inp) st.curr_traj_slice
        (fun s => writeObsRnn s cfg.rollout inp.env_obs
          (maskRnn inp.new_rnn_states inp.env_dones)) st.curr_traj_slice) cfg.rollout := by
    rw [htr3]
    refine ⟨fun row => ?_, fun row => ?_, fun row => ?_, fun row => ?_, fun row => ?_,
      fun row => ?_, fun row => ?_, fun row => ?_⟩
    · simp only [writeObsRnn, writeEnvResults, writePolicyOutputs, writeAt_isSome, ho row]
      omega
    · simp only [writeObsRnn, writeEnvResults, writePolicyOutputs, writeAt_isSome, hr row]
      omega
    · simp only [writeObsRnn, writeEnvResults, writePolicyOutputs, writeAt_isSome, ha row]
      omega
    · simp only [writeObsRnn, writeEnvResults, writePolicyOutputs, writeAt_isSome, hv row]
      omega
    · simp only [writeObsRnn, writeEnvResults, writePolicyOutputs, writeAt_isSome, hl row]
      omega
    · simp only [writeObsRnn, writeEnvResults, writePolicyOutputs, writeAt_isSome, hrw row]
      omega
    · simp only [writeObsRnn, writeEnvResults, writePolicyOutputs, writeAt_isSome, hd row]
      omega
    · simp only [writeObsRnn, writeEnvResults, writePolicyOutputs, writeAt_isSome, hp row]
      omega
  have hobs3 : (updateSlice (trajAfterWrites cfg st inp) st.curr_traj_slice
        (fun s => writeObsRnn s cfg.rollout inp.env_obs
          (maskRnn inp.new_rnn_states inp.env_dones)) st.curr_traj_slice).obs
        cfg.rollout = some inp.env_obs := by
    rw [htr3]
    exact writeAt_self _ _ _
  have hrnn3 : (updateSlice (trajAfterWrites cfg st inp) st.curr_traj_slice
        (fun s => writeObsRnn s cfg.rollout inp.env_obs
          (maskRnn inp.new_rnn_states inp.env_dones)) st.curr_traj_slice).rnn_states
        cfg.rollout = some (maskRnn inp.new_rnn_states inp.env_dones) := by
    rw [htr3]
    exact writeAt_self _ _ _
  by_cases hb : st.curr_traj_slice = buffers
  · -- the fresh slice shares the handle: the prepare-next-step write hits row 0,
    -- which is already populated, so the row counts and the bootstrap row survive
    have htr4 : (rotResult cfg st inp buffers rest).2.traj_tensors st.curr_traj_slice =
        writeObsRnn (updateSlice (trajAfterWrites cfg st inp) st.curr_traj_slice
          (fun s => writeObsRnn s cfg.rollout inp.env_obs
            (maskRnn inp.new_rnn_states inp.env_dones)) st.curr_traj_slice)
          0 inp.env_obs (maskRnn inp.new_rnn_states inp.env_dones) := by
      show updateSlice (updateSlice (trajAfterWrites cfg st inp) st.curr_traj_slice
          (fun s => writeObsRnn s cfg.rollout inp.env_obs
            (maskRnn inp.new_rnn_states inp.env_dones)))
        buffers (fun s => writeObsRnn s 0 inp.env_obs
          (maskRnn inp.new_rnn_states inp.env_dones)) st.curr_traj_slice = _
      rw [hb, updateSlice_self, ← hb]
    rw [htr4]
    exact sliceInv_writeObsRnn_zero _ cfg.rollout _ _ hinv3 hT1 hobs3 hrnn3
  · have htr4 : (rotResult cfg st inp buffers rest).2.traj_tensors st.curr_traj_slice =
        updateSlice (trajAfterWrites cfg st inp) st.curr_traj_slice
          (fun s => writeObsRnn s cfg.rollout inp.env_obs
            (maskRnn inp.new_rnn_states inp.env_dones)) st.curr_traj_slice := by
      show updateSlice (updateSlice (trajAfterWrites cfg st inp) st.curr_traj_slice
          (fun s => writeObsRnn s cfg.rollout inp.env_obs
            (maskRnn inp.new_rnn_states inp.env_dones)))
        buffers (fun s => writeObsRnn s 0 inp.env_obs
          (maskRnn inp.new_rnn_states inp.env_dones)) st.curr_traj_slice = _
      rw [updateSlice_other _ _ _ _ hb]
    rw [htr4]
    exact ⟨hinv3, hobs3, hrnn3⟩

theorem runRollouts_completes (cfg : Config) (h0 h1 : ℕ) (rest : List ℕ) :
    ∀ (ins : List StepInput) (k : ℕ) (st : RunnerState),
      RunInv h0 h1 rest k st → k + ins.length = cfg.rollout → ins ≠ [] →
      ∃ stF outs, runRollouts cfg st ins = Except.ok (stF, outs) ∧
        outs.length = ins.length ∧
        (∀ j, j + 1 < outs.length → (outs.getD j default).complete_rollouts = []) ∧
        (outs.getD (outs.length - 1) default).complete_rollouts = [h0] ∧
        stF.curr_traj_slice = h1 ∧ stF.pool = rest ∧ stF.rollout_step = 0 ∧
        SliceInv (stF.traj_tensors h0) cfg.rollout ∧
        (stF.traj_tensors h0).obs cfg.rollout = some stF.last_obs ∧
        (stF.traj_tensors h0).rnn_states cfg.rollout = some stF.last_rnn_state := by
  intro ins
  induction ins with
  | nil =>
    intro k st _ _ hne
    exact absurd rfl hne
  | cons inp ins ih =>
    intro k st hInv hlen hne
    simp only [List.length_cons] at hlen
    cases hins : ins with
    | nil =>
      subst hins
      simp only [List.length_nil] at hlen
      have hrot : st.rollout_step + 1 = cfg.rollout := by
        rw [hInv.step_eq]
        omega
      have hadv : advanceRollouts cfg st inp =
          Except.ok (rotResult cfg st inp h1 rest) := by
        unfold advanceRollouts
        rw [if_pos hrot, hInv.pool_eq]
        rfl
      have hadv2 : advanceRollouts cfg st inp =
          Except.ok ((rotResult cfg st inp h1 rest).1, (rotResult cfg st inp h1 rest).2) :=
        hadv
      have hrun : runRollouts cfg st [inp] =
          Except.ok ((rotResult cfg st inp h1 rest).2, [(rotResult cfg st inp h1 rest).1]) := by
        unfold runRollouts
        rw [hadv2]
        rfl
      obtain ⟨hsl, hobs, hrnn⟩ := sliceInv_rot cfg st inp h1 rest hrot
        (by rw [hInv.slice_eq, hInv.step_eq] at *; exact hInv.step_eq ▸ hInv.inv)
      refine ⟨(rotResult cfg st inp h1 rest).2, [(rotResult cfg st inp h1 rest).1],
        hrun, rfl, ?_, ?_, rfl, rfl, rfl, ?_, ?_, ?_⟩
      · intro j hj
        simp only [List.length_cons, List.length_nil] at hj
        omega
      · show (rotResult cfg st inp h1 rest).1.complete_rollouts = [h0]
        show [st.curr_traj_slice] = [h0]
        rw [hInv.slice_eq]
      · rw [← hInv.slice_eq]
        exact hsl
      · rw [← hInv.slice_eq]
        exact hobs
      · rw [← hInv.slice_eq]
        exact hrnn
    | cons inp2 ins2 =>
      rw [← hins]
      have hne2 : ins ≠ [] := by
        rw [hins]
        exact List.cons_ne_nil inp2 ins2
      have hge1 : 1 ≤ ins.length := by
        rw [hins]
        simp
      have hk1 : k + 1 ≠ cfg.rollout := by omega
      obtain ⟨hadv, hcomp, hInv2⟩ := runInv_mid cfg h0 h1 rest k st inp hInv hk1
      obtain ⟨stF, outs, hrun, hlen2, hmid, hlast, hcT, hpT, hsT, hslT, hobsT, hrnnT⟩ :=
        ih (k + 1) (midResult cfg st inp).2 hInv2 (by omega) hne2
      have hadv2 : advanceRollouts cfg st inp =
          Except.ok ((midResult cfg st inp).1, (midResult cfg st inp).2) := hadv
      have hrunC : runRollouts cfg st (inp :: ins) =
          Except.ok (stF, (midResult cfg st inp).1 :: outs) := by
        unfold runRollouts
        rw [hadv2]
        show (match runRollouts cfg (midResult cfg st inp).2 ins with
          | Except.error e => Except.error e
          | Except.ok (stF, outs) => Except.ok (stF, (midResult cfg st inp).1 :: outs)) = _
        rw [hrun]
      refine ⟨stF, (midResult cfg st inp).1 :: outs, hrunC, by simp [hlen2], ?_, ?_,
        hcT, hpT, hsT, hslT, hobsT, hrnnT⟩
      · intro j hj
        cases j with
        | zero => exact hcomp
        | succ j =>
          show (outs.getD j default).complete_rollouts = []
          apply hmid
          simp only [List.length_cons] at hj
          omega
      · have houts1 : 1 ≤ outs.length := by omega
        have hidx : ((midResult cfg st inp).1 :: outs).length - 1 = (outs.length - 1) + 1 := by
          simp only [List.length_cons]
          omega
        rw [hidx, List.getD_cons_succ]
        exact hlast

/-- C2: for any configured rollout length `T ≥ 1`, starting from a freshly
initialized runner (whose initial policy request has pre-written row 0), after
exactly `T` calls to `advance_rollouts` exactly one completed-slice handle is
produced (and zero on every earlier call); the completed slice's observation
and recurrent-state fields then hold `T + 1` written rows, the last being the
post-step bootstrap row, while all other fields hold `T` rows; a fresh slice
has been acquired from the pool and the step offset is reset to 0. -/
theorem c2_rollout_completion (cfg : Config) (A rnnW : ℕ) (pid : ℤ) (obs0 : List ℚ)
    (h0 h1 : ℕ) (rest : List ℕ) (ins : List StepInput)
    (hT : 1 ≤ cfg.rollout) (hlen : ins.length = cfg.rollout) :
    ∃ st1, initState A pid obs0 rnnW (h0 :: h1 :: rest) = Except.ok st1 ∧
    ∃ stF outs, runRollouts cfg (generatePolicyRequest st1).2 ins = Except.ok (stF, outs) ∧
      outs.length = cfg.rollout ∧
      (∀ j, j + 1 < outs.length → (outs.getD j default).complete_rollouts = []) ∧
      (outs.getD (outs.length - 1) default).complete_rollouts = [h0] ∧
      stF.curr_traj_slice = h1 ∧ stF.pool = rest ∧ stF.rollout_step = 0 ∧
      SliceInv (stF.traj_tensors h0) cfg.rollout ∧
      (stF.traj_tensors h0).obs cfg.rollout = some stF.last_obs ∧
      (stF.traj_tensors h0).rnn_states cfg.rollout = some stF.last_rnn_state := by
  refine ⟨_, rfl, ?_⟩
  have hInv : RunInv h0 h1 rest 0 (generatePolicyRequest
      { num_agents := A, policy_id := pid, rollout_step := 0, last_obs := obs0,
        last_rnn_state := List.replicate A (List.replicate rnnW 0),
        curr_episode_reward := List.replicate A 0,
        curr_episode_len := List.replicate A 0,
        curr_traj_slice := h0, pool := h1 :: rest,
        traj_tensors := fun _ => emptySlice }).2 := by
    refine ⟨rfl, rfl, rfl, ?_⟩
    have htr : (generatePolicyRequest
        { num_agents := A, policy_id := pid, rollout_step := 0, last_obs := obs0,
          last_rnn_state := List.replicate A (List.replicate rnnW 0),
          curr_episode_reward := List.replicate A 0,
          curr_episode_len := List.replicate A 0,
          curr_traj_slice := h0, pool := h1 :: rest,
          traj_tensors := fun _ => emptySlice } : List (ℤ × ℕ × ℕ) × RunnerState).2.traj_tensors
          h0 =
        writeObsRnn emptySlice 0 obs0 (List.replicate A (List.replicate rnnW 0)) := by
      show updateSlice (fun _ => emptySlice) h0
          (fun s => writeObsRnn s 0 obs0 (List.replicate A (List.replicate rnnW 0))) h0 = _
      rw [updateSlice_self]
    rw [htr]
    refine ⟨fun row => ?_, fun row => ?_, fun row => ?_, fun row => ?_, fun row => ?_,
      fun row => ?_, fun row => ?_, fun row => ?_⟩
    · simp only [writeObsRnn, emptySlice, writeAt_isSome]
      simp
    · simp only [writeObsRnn, emptySlice, writeAt_isSome]
      simp
    · simp only [writeObsRnn, emptySlice]
      simp
    · simp only [writeObsRnn, emptySlice]
      simp
    · simp only [writeObsRnn, emptySlice]
      simp
    · simp only [writeObsRnn, emptySlice]
      simp
    · simp only [writeObsRnn, emptySlice]
      simp
    · simp only [writeObsRnn, emptySlice]
      simp
  obtain ⟨stF, outs, hrun, hlen2, hmid, hlast, hcT, hpT, hsT, hslT, hobsT, hrnnT⟩ :=
    runRollouts_completes cfg h0 h1 rest ins 0 _ hInv (by omega)
      (by intro hnil; rw [hnil] at hlen; simp at hlen; omega)
  exact ⟨stF, outs, hrun, by omega, hmid, hlast, hcT, hpT, hsT, hslT, hobsT, hrnnT⟩

/-- Witness for C2: a two-step rollout with two buffers in the pool. -/
theorem c2_rollout_completion_witness :
    ∃ st1, initState 2 0 [0, 0] 1 (5 :: 6 :: []) = Except.ok st1 ∧
    ∃ stF outs, runRollouts demoCfg (generatePolicyRequest st1).2 [demoInput, demoInput] =
        Except.ok (stF, outs) ∧
      outs.length = demoCfg.rollout ∧
      (∀ j, j + 1 < outs.length → (outs.getD j default).complete_rollouts = []) ∧
      (outs.getD (outs.length - 1) default).complete_rollouts = [5] ∧
      stF.curr_traj_slice = 6 ∧ stF.pool = [] ∧ stF.rollout_step = 0 ∧
      SliceInv (stF.traj_tensors 5) demoCfg.rollout ∧
      (stF.traj_tensors 5).obs demoCfg.rollout = some stF.last_obs ∧
      (stF.traj_tensors 5).rnn_states demoCfg.rollout = some stF.last_rnn_state :=
  c2_rollout_completion demoCfg 2 1 0 [0, 0] 5 6 [] [demoInput, demoInput]
    (by decide) (by decide)

/-! ### C4: what the emitted episode reports actually sum

The counterexample below shows the claim as stated is false: the episode
accumulator is fed `rewards` — the raw tensor returned by `vec_env.step` —
while `_process_rewards` builds a fresh scaled/clamped tensor that is only
written into the trajectory slice. -/

theorem getD_replicate {α : Type} (n i : ℕ) (a : α) : (List.replicate n a).getD i a = a := by
  induction n generalizing i with
  | zero => cases i <;> rfl
  | succ n ih =>
    cases i with
    | zero => rfl
    | succ m => simpa [List.replicate_succ] using ih m

theorem getD_mem_of_lt {α : Type} (l : List α) (n : ℕ) (d : α) (h : n < l.length) :
    l.getD n d ∈ l := by
  induction l generalizing n with
  | nil => simp at h
  | cons x xs ih =>
    cases n with
    | zero => exact List.mem_cons_self x xs
    | succ m => exact List.mem_cons_of_mem x (ih m (by simpa using h))

def stepAcc (pid : ℤ) (acc : List ℚ × List ℕ) (inp : StepInput) : List ℚ × List ℕ :=
  ((processEnvStep pid acc.1 acc.2 inp.env_rewards inp.env_dones inp.infos).2.1,
   (processEnvStep pid acc.1 acc.2 inp.env_rewards inp.env_dones inp.infos).2.2)

theorem stepAcc_fst (pid : ℤ) (acc : List ℚ × List ℕ) (inp : StepInput) :
    (stepAcc pid acc inp).1 =
      (processEnvStep pid acc.1 acc.2 inp.env_rewards inp.env_dones inp.infos).2.1 := rfl

theorem stepAcc_snd (pid : ℤ) (acc : List ℚ × List ℕ) (inp : StepInput) :
    (stepAcc pid acc inp).2 =
      (processEnvStep pid acc.1 acc.2 inp.env_rewards inp.env_dones inp.infos).2.2 := rfl

/-- Episode accumulator after the first `k` steps of a run. -/
def accAfter (pid : ℤ) (acc0 : List ℚ × List ℕ) (ins : List StepInput) : ℕ → List ℚ × List ℕ
  | 0 => acc0
  | k + 1 => stepAcc pid (accAfter pid acc0 ins k) (ins.getD k default)

/-- The episode reports emitted at step `k` of a run. -/
def reportsAt (pid : ℤ) (acc0 : List ℚ × List ℕ) (ins : List StepInput) (k : ℕ) :
    List Report :=
  (processEnvStep pid (accAfter pid acc0 ins k).1 (accAfter pid acc0 ins k).2
    (ins.getD k default).env_rewards (ins.getD k default).env_dones
    (ins.getD k default).infos).1

theorem accAfter_cons (pid : ℤ) (acc0 : List ℚ × List ℕ) (inp : StepInput)
    (ins : List StepInput) : ∀ k, accAfter pid acc0 (inp :: ins) (k + 1) =
      accAfter pid (stepAcc pid acc0 inp) ins k := by
  intro k
  induction k with
  | zero => rfl
  | succ k ih =>
    show stepAcc pid (accAfter pid acc0 (inp :: ins) (k + 1))
        ((inp :: ins).getD (k + 1) default) = _
    rw [ih]
    rfl

theorem reportsAt_cons (pid : ℤ) (acc0 : List ℚ × List ℕ) (inp : StepInput)
    (ins : List StepInput) (k : ℕ) :
    reportsAt pid acc0 (inp :: ins) (k + 1) = reportsAt pid (stepAcc pid acc0 inp) ins k := by
  unfold reportsAt
  rw [accAfter_cons]
  rfl

/-- The episodic stats emitted at each step of a successful run are exactly the
reports of the pure episode machine started from the runner's accumulators. -/
theorem runRollouts_stats (cfg : Config) : ∀ (ins : List StepInput) (st stF : RunnerState)
    (outs : List StepOut), runRollouts cfg st ins = Except.ok (stF, outs) →
    ∀ k, k < ins.length →
      (outs.getD k default).episodic_stats =
        reportsAt st.policy_id (st.curr_episode_reward, st.curr_episode_len) ins k := by
  intro ins
  induction ins with
  | nil =>
    intro st stF outs _ k hk
    simp at hk
  | cons inp ins ih =>
    intro st stF outs hrun k hk
    unfold runRollouts at hrun
    cases hadv : advanceRollouts cfg st inp with
    | error e =>
      rw [hadv] at hrun
      cases hrun
    | ok res =>
      obtain ⟨out, st2⟩ := res
      rw [hadv] at hrun
      simp only [] at hrun
      cases hrec : runRollouts cfg st2 ins with
      | error e =>
        rw [hrec] at hrun
        cases hrun
      | ok p =>
        obtain ⟨stF2, outs2⟩ := p
        rw [hrec] at hrun
        simp only [] at hrun
        injection hrun with hpair
        injection hpair with hst houts
        subst houts
        obtain ⟨hstats, hepR, hepL, hpid, _, _, _, _⟩ :=
          advanceRollouts_proj cfg st inp (out, st2) hadv
        cases k with
        | zero =>
          show out.episodic_stats = _
          rw [hstats]
          rfl
        | succ k =>
          show (outs2.getD k default).episodic_stats = _
          rw [reportsAt_cons]
          have hacc : (st2.curr_episode_reward, st2.curr_episode_len) =
              stepAcc st.policy_id (st.curr_episode_reward, st.curr_episode_len) inp := by
            rw [hepR, hepL]
            rfl
          rw [← hacc, ← hpid]
          exact ih st2 stF2 outs2 hrec k (by simpa using hk)

def rawAt (ins : List StepInput) (i j : ℕ) : ℚ :=
  ((ins.getD j default).env_rewards).getD i 0

def doneAt (ins : List StepInput) (i j : ℕ) : Bool :=
  ((ins.getD j default).env_dones).getD i false

/-- First step of the episode that agent `i` is in at time `k`. -/
def epStartAt (ins : List StepInput) (i : ℕ) : ℕ → ℕ
  | 0 => 0
  | k + 1 => if doneAt ins i k then k + 1 else epStartAt ins i k

/-- Sum of `f j` over `a ≤ j < k`. -/
def sumFrom (f : ℕ → ℚ) (a : ℕ) : ℕ → ℚ
  | 0 => 0
  | k + 1 => if a ≤ k then sumFrom f a k + f k else 0

theorem epStartAt_le (ins : List StepInput) (i : ℕ) : ∀ k, epStartAt ins i k ≤ k := by
  intro k
  induction k with
  | zero => exact Nat.le_refl 0
  | succ k ih =>
    unfold epStartAt
    by_cases hd : doneAt ins i k
    · rw [if_pos hd]
    · rw [if_neg hd]
      omega

theorem processEnvStep_lengths (pid : ℤ) (epR : List ℚ) (epL : List ℕ)
    (rew : List ℚ) (dones : List Bool) (infos : Infos) (A : ℕ)
    (hR : epR.length = A) (hL : epL.length = A) (hrew : rew.length = A)
    (hd : dones.length = A) :
    (processEnvStep pid epR epL rew dones infos).2.1.length = A ∧
    (processEnvStep pid epR epL rew dones infos).2.2.length = A := by
  unfold processEnvStep resetWhere
  constructor <;> simp [hR, hL, hrew, hd]

/-- Running invariant: the episode accumulator of agent `i` always holds the
sum of that agent's raw rewards since the step after its last done flag, and
the corresponding step count. -/
theorem accAfter_episode (pid : ℤ) (A : ℕ) (ins : List StepInput)
    (hlens : ∀ inp ∈ ins, inp.env_rewards.length = A ∧ inp.env_dones.length = A)
    (i : ℕ) (hi : i < A) :
    ∀ k, k ≤ ins.length →
      (accAfter pid (List.replicate A 0, List.replicate A 0) ins k).1.length = A ∧
      (accAfter pid (List.replicate A 0, List.replicate A 0) ins k).2.length = A ∧
      (accAfter pid (List.replicate A 0, List.replicate A 0) ins k).1.getD i 0 =
        sumFrom (rawAt ins i) (epStartAt ins i k) k ∧
      (accAfter pid (List.replicate A 0, List.replicate A 0) ins k).2.getD i 0 =
        k - epStartAt ins i k := by
  intro k
  induction k with
  | zero =>
    intro _
    refine ⟨?_, ?_, ?_, ?_⟩
    · show (List.replicate A (0 : ℚ)).length = A
      simp
    · show (List.replicate A (0 : ℕ)).length = A
      simp
    · show (List.replicate A (0 : ℚ)).getD i 0 = sumFrom (rawAt ins i) 0 0
      rw [getD_replicate]
      rfl
    · show (List.replicate A (0 : ℕ)).getD i 0 = 0 - 0
      rw [getD_replicate]
  | succ k ih =>
    intro hk1
    have hk : k ≤ ins.length := by omega
    obtain ⟨hlen1, hlen2, hsum, hcnt⟩ := ih hk
    have hklt : k < ins.length := by omega
    have hmem : ins.getD k default ∈ ins := getD_mem_of_lt ins k default hklt
    obtain ⟨hrewlen, hdonlen⟩ := hlens _ hmem
    have hstart := epStartAt_le ins i k
    have hrewD := processEnvStep_reward_getD pid
      (accAfter pid (List.replicate A 0, List.replicate A 0) ins k).1
      (accAfter pid (List.replicate A 0, List.replicate A 0) ins k).2
      (ins.getD k default).env_rewards (ins.getD k default).env_dones
      (ins.getD k default).infos A i hlen1 hrewlen hdonlen hi
    have hlenD := processEnvStep_len_getD pid
      (accAfter pid (List.replicate A 0, List.replicate A 0) ins k).1
      (accAfter pid (List.replicate A 0, List.replicate A 0) ins k).2
      (ins.getD k default).env_rewards (ins.getD k default).env_dones
      (ins.getD k default).infos A i hlen2 hdonlen hi
    obtain ⟨hL1, hL2⟩ := processEnvStep_lengths pid
      (accAfter pid (List.replicate A 0, List.replicate A 0) ins k).1
      (accAfter pid (List.replicate A 0, List.replicate A 0) ins k).2
      (ins.getD k default).env_rewards (ins.getD k default).env_dones
      (ins.getD k default).infos A hlen1 hlen2 hrewlen hdonlen
    have heq : accAfter pid (List.replicate A 0, List.replicate A 0) ins (k + 1) =
        stepAcc pid (accAfter pid (List.replicate A 0, List.replicate A 0) ins k)
          (ins.getD k default) := rfl
    refine ⟨?_, ?_, ?_, ?_⟩
    · rw [heq, stepAcc_fst]
      exact hL1
    · rw [heq, stepAcc_snd]
      exact hL2
    · rw [heq, stepAcc_fst, hrewD]
      by_cases hdone : doneAt ins i k
      · have hdone2 : (ins.getD k default).env_dones.getD i false = true := hdone
        rw [if_pos hdone2]
        have hes0 : epStartAt ins i (k + 1) =
            if doneAt ins i k then k + 1 else epStartAt ins i k := rfl
        have hes : epStartAt ins i (k + 1) = k + 1 := by
          rw [hes0, if_pos hdone]
        have hsf0 : sumFrom (rawAt ins i) (k + 1) (k + 1) =
            if k + 1 ≤ k then sumFrom (rawAt ins i) (k + 1) k + rawAt ins i k else 0 := rfl
        have hsf : sumFrom (rawAt ins i) (k + 1) (k + 1) = 0 := by
          rw [hsf0, if_neg (by omega)]
        rw [hes, hsf]
      · have hdone2 : ¬((ins.getD k default).env_dones.getD i false = true) := hdone
        rw [if_neg hdone2]
        have hes0 : epStartAt ins i (k + 1) =
            if doneAt ins i k then k + 1 else epStartAt ins i k := rfl
        have hes : epStartAt ins i (k + 1) = epStartAt ins i k := by
          rw [hes0, if_neg hdone]
        have hsf : sumFrom (rawAt ins i) (epStartAt ins i k) (k + 1) =
            if epStartAt ins i k ≤ k then
              sumFrom (rawAt ins i) (epStartAt ins i k) k + rawAt ins i k else 0 := rfl
        rw [hes, hsf, if_pos hstart, hsum]
        rfl
    · rw [heq, stepAcc_snd, hlenD]
      by_cases hdone : doneAt ins i k
      · have hdone2 : (ins.getD k default).env_dones.getD i false = true := hdone
        rw [if_pos hdone2]
        have hes0 : epStartAt ins i (k + 1) =
            if doneAt ins i k then k + 1 else epStartAt ins i k := rfl
        have hes : epStartAt ins i (k + 1) = k + 1 := by
          rw [hes0, if_pos hdone]
        rw [hes]
        omega
      · have hdone2 : ¬((ins.getD k default).env_dones.getD i false = true) := hdone
        rw [if_neg hdone2]
        have hes0 : epStartAt ins i (k + 1) =
            if doneAt ins i k then k + 1 else epStartAt ins i k := rfl
        have hes : epStartAt ins i (k + 1) = epStartAt ins i k := by
          rw [hes0, if_neg hdone]
        rw [hes, hcnt]
        omega

/-- C4 counterexample: with `reward_scale = 2` and `reward_clip = 3/2`, an
episode consisting of one step with raw reward 3 is reported with reward 3 —
the raw environment reward — whereas the sum of the processed (scaled and
clamped) rewards of that episode is `3/2`; the claim as stated is false. -/
theorem c4_report_uses_raw_rewards :
    ((okD (advanceRollouts demoCfg
        { num_agents := 1, policy_id := 0, rollout_step := 0, last_obs := [0],
          last_rnn_state := [[0]], curr_episode_reward := [0], curr_episode_len := [0],
          curr_traj_slice := 0, pool := [1], traj_tensors := fun _ => emptySlice }
        { actions := [0], values := [0], log_probs := [0], new_rnn_states := [[0]],
          env_obs := [0], env_rewards := [3], env_dones := [true],
          infos := Infos.dictOfTensors none }) default).1.episodic_stats.map
      (fun rep => rep.reward)) = [3] ∧
    processRewards demoCfg [3] [0] (Infos.dictOfTensors none) = [3/2] ∧
    (3 : ℚ) ≠ 3/2 := by
  refine ⟨?_, ?_, by norm_num⟩
  · show [(0 : ℚ) + 3] = [3]
    norm_num
  · show [clamp ((3 : ℚ) * 2) (-(3/2)) (3/2)] = [3/2]
    norm_num [clamp]

/-- C4 (amended): for every agent whose done flag is observed true at step `k`
of a successful run from zeroed accumulators, the emitted episode report's
reward equals the sum of that agent's RAW environment rewards (before scaling,
clamping or bootstrap) over the steps of the episode just ended, and its
length equals the number of steps of that episode. -/
theorem c4_episode_report (cfg : Config) (st0 : RunnerState) (ins : List StepInput)
    (A i k : ℕ)
    (hok : exceptOk (runRollouts cfg st0 ins) = true)
    (hR : st0.curr_episode_reward = List.replicate A 0)
    (hL : st0.curr_episode_len = List.replicate A 0)
    (hlens : ∀ inp ∈ ins, inp.env_rewards.length = A ∧ inp.env_dones.length = A)
    (hk : k < ins.length) (hi : i < A) (hdone : doneAt ins i k = true) :
    ∃ rep ∈ ((okD (runRollouts cfg st0 ins) default).2.getD k default).episodic_stats,
      rep.reward = sumFrom (rawAt ins i) (epStartAt ins i k) (k + 1) ∧
      rep.len = (k + 1) - epStartAt ins i k ∧
      rep.policy_id = st0.policy_id := by
  cases hrun : runRollouts cfg st0 ins with
  | error e => rw [hrun] at hok; simp [exceptOk] at hok
  | ok res =>
    obtain ⟨stF, outs⟩ := res
    simp only [okD]
    have hstat := runRollouts_stats cfg ins st0 stF outs hrun k hk
    show ∃ rep ∈ (outs.getD k default).episodic_stats, _
    rw [hstat, hR, hL]
    have hkle : k ≤ ins.length := by omega
    obtain ⟨hlen1, hlen2, hsum, hcnt⟩ :=
      accAfter_episode st0.policy_id A ins hlens i hi k hkle
    have hmem : ins.getD k default ∈ ins := getD_mem_of_lt ins k default hk
    obtain ⟨hrewlen, hdonlen⟩ := hlens _ hmem
    obtain ⟨rep, hrepmem, hrw, hlen, hpid⟩ := processEnvStep_report_mem st0.policy_id
      (accAfter st0.policy_id (List.replicate A 0, List.replicate A 0) ins k).1
      (accAfter st0.policy_id (List.replicate A 0, List.replicate A 0) ins k).2
      (ins.getD k default).env_rewards (ins.getD k default).env_dones
      (ins.getD k default).infos A i hlen1 hlen2 hrewlen hdonlen hi hdone
    refine ⟨rep, hrepmem, ?_, ?_, hpid⟩
    · rw [hrw, hsum]
      have hstart := epStartAt_le ins i k
      have hsf : sumFrom (rawAt ins i) (epStartAt ins i k) (k + 1) =
          if epStartAt ins i k ≤ k then
            sumFrom (rawAt ins i) (epStartAt ins i k) k + rawAt ins i k else 0 := rfl
      rw [hsf, if_pos hstart]
      rfl
    · rw [hlen, hcnt]
      have hstart := epStartAt_le ins i k
      omega

def demoDoneInput : StepInput :=
  { actions := [0], values := [0], log_probs := [0], new_rnn_states := [[0]],
    env_obs := [0], env_rewards := [7], env_dones := [true],
    infos := Infos.dictOfTensors none }

def demoC4State : RunnerState :=
  { num_agents := 1, policy_id := 0, rollout_step := 0, last_obs := [0],
    last_rnn_state := [[0]], curr_episode_reward := [0], curr_episode_len := [0],
    curr_traj_slice := 0, pool := [1], traj_tensors := fun _ => emptySlice }

/-- Witness for the amended C4: a one-step episode with raw reward 7. -/
theorem c4_episode_report_witness :
    ∃ rep ∈ ((okD (runRollouts demoCfg demoC4State [demoDoneInput]) default).2.getD 0
        default).episodic_stats,
      rep.reward = sumFrom (rawAt [demoDoneInput] 0) (epStartAt [demoDoneInput] 0 0) (0 + 1) ∧
      rep.len = (0 + 1) - epStartAt [demoDoneInput] 0 0 ∧
      rep.policy_id = demoC4State.policy_id :=
  c4_episode_report demoCfg demoC4State [demoDoneInput] 1 0 0 (by decide) (by decide)
    (by decide) (by decide) (by decide) (by decide) (by decide)

end SampleFactory
